import Mathlib

set_option autoImplicit false

/-!
Verification of the gateway/dispatcher core of the Orion.py client library
(`discord/client.py`).  The dispatcher (`Client.dispatch`, `Client.wait_for`,
`Client.event`, `Client._run_event`), the connection loop (`Client.connect`)
and shutdown (`Client.close`) are embedded as pure Lean functions; Python
futures and coroutine outcomes become explicit state values, and the
event-loop scheduling of callbacks becomes returned task data.
-/

namespace Orion

universe u v

/-- The value a one-shot waiter's future is completed with by `Client.dispatch`
(client.py lines 1960-1965): `None` for zero dispatch arguments, the single
argument for one, the whole argument tuple otherwise. -/
inductive DValue (Arg : Type u) where
  | unit
  | single (a : Arg)
  | tuple (args : List Arg)
  deriving DecidableEq

/-- Observable state of an `asyncio.Future` as used by the waiter machinery:
pending, completed with a value, failed with an exception, or cancelled. -/
inductive FutureState (Arg : Type u) (Exn : Type v) where
  | pending
  | result (v : DValue Arg)
  | exn (e : Exn)
  | cancelled
  deriving DecidableEq

/-- One entry of `Client._listeners[event]`: the `(future, condition)` pair
appended by `Client.wait_for` (client.py line 2589).  The condition may raise,
so it returns in `Except`. -/
structure Waiter (Arg : Type u) (Exn : Type v) where
  future : FutureState Arg Exn
  check : List Arg → Except Exn Bool

variable {Arg : Type u} {Exn : Type v}

/-- The completion value computed by `Client.dispatch` from `*args`
(client.py lines 1960-1965). -/
def valueOf : List Arg → DValue Arg
  | [] => .unit
  | [a] => .single a
  | args => .tuple args

/-- One iteration of the `enumerate(listeners)` loop body in `Client.dispatch`
(client.py lines 1948-1966): the waiter with its future updated, paired with
whether its index was appended to `removed`.  A cancelled future is removed
untouched (`continue`); a raising condition fails the future with the raised
exception; a condition returning true completes the future with
`valueOf args`.  (A non-cancelled already-completed future cannot occur in the
list: the dispatch that completes a future removes it in the same scan.) -/
def procWaiter (args : List Arg) (w : Waiter Arg Exn) : Waiter Arg Exn × Bool :=
  match w.future with
  | .cancelled => (w, true)
  | _ =>
    match w.check args with
    | .error e => ({ w with future := .exn e }, true)
    | .ok true => ({ w with future := .result (valueOf args) }, true)
    | .ok false => (w, false)

/-- The whole listener scan of `Client.dispatch` starting at index `i`:
returns the listeners with futures updated, and the (ascending) `removed`
index list. -/
def scanFrom (args : List Arg) (i : Nat) :
    List (Waiter Arg Exn) → List (Waiter Arg Exn) × List Nat
  | [] => ([], [])
  | w :: ws =>
    let p := procWaiter args w
    let r := scanFrom args (i + 1) ws
    (p.1 :: r.1, if p.2 then i :: r.2 else r.2)

/-- Python `del listeners[idx]`. -/
def delIdx {α : Type u} (l : List α) (i : Nat) : List α :=
  l.take i ++ l.drop (i + 1)

/-- `for idx in reversed(removed): del listeners[idx]`
(client.py lines 1971-1972). -/
def delAllRev {α : Type u} (l : List α) (idxs : List Nat) : List α :=
  idxs.reverse.foldl delIdx l

/-- The listener list for `event` after `Client.dispatch(event, *args)`
(client.py lines 1945-1972): scan every waiter; if every index was removed the
dict entry is popped (yielding the absent/empty list), otherwise the removed
indices are deleted in reverse order. -/
def afterDispatch (args : List Arg) (ws : List (Waiter Arg Exn)) :
    List (Waiter Arg Exn) :=
  let s := scanFrom args 0 ws
  if s.2.length = ws.length then [] else delAllRev s.1 s.2

/-- `Client._listeners`, modelled as a total map from event name to waiter
list; an absent dict key is the empty list (both are falsy in the
`if listeners:` test, and popping the key on all-removed likewise yields
absence). -/
def Listeners (Arg : Type u) (Exn : Type v) := String → List (Waiter Arg Exn)

/-- The registration performed by `Client.wait_for` (client.py lines
2576-2589): a fresh pending future paired with the check (the always-true
`_check` when none is supplied) is appended to the list for the lowercased
event name. -/
def registerWaiter (L : Listeners Arg Exn) (ev : String)
    (check : List Arg → Except Exn Bool) : Listeners Arg Exn :=
  fun e => if e = ev.toLower then L e ++ [⟨.pending, check⟩] else L e

/-- Effect of `Client.dispatch(event, *args)` on the listener map: only the
entry for `event` is touched. -/
def dispatchListeners (L : Listeners Arg Exn) (ev : String) (args : List Arg) :
    Listeners Arg Exn :=
  fun e => if e = ev then afterDispatch args (L e) else L e

/-- Folding a sequence of dispatches of one event over its listener list. -/
def dispatchFold (calls : List (List Arg)) (ws : List (Waiter Arg Exn)) :
    List (Waiter Arg Exn) :=
  calls.foldl (fun l args => afterDispatch args l) ws

/-- The survivors of a dispatch scan, stated declaratively: a waiter stays in
the listener list iff its future is still pending and its check returned
false on the dispatched arguments. -/
def keptByScan (args : List Arg) (w : Waiter Arg Exn) : Bool :=
  match w.future, w.check args with
  | .pending, .ok false => true
  | _, _ => false

/-! ### Persistent handlers: `Client.event`, attribute lookup, scheduling -/

/-- A Python callback object as `Client.event` sees it: its `__name__` and
whether `asyncio.iscoroutinefunction` holds of it. -/
structure Callback where
  name : String
  isCoroutineFn : Bool
  deriving DecidableEq

/-- The instance attribute table consulted by `getattr(self, 'on_' + event)`
and written by `setattr(self, coro.__name__, coro)`. -/
abbrev AttrTable := List (String × Callback)

/-- Python instance `setattr`: rebind an existing attribute of that name,
else add it. -/
def setAttr (attrs : AttrTable) (n : String) (c : Callback) : AttrTable :=
  if attrs.any (fun p => p.1 == n) then
    attrs.map (fun p => if p.1 == n then (n, c) else p)
  else attrs ++ [(n, c)]

/-- Python `getattr`, returning `none` where Python raises `AttributeError`. -/
def getAttr (attrs : AttrTable) (n : String) : Option Callback :=
  (attrs.find? (fun p => p.1 == n)).map Prod.snd

/-- `Client.event` (client.py lines 2594-2621): raises `TypeError` unless the
argument is a coroutine function, else binds it as the attribute named by the
coroutine's own `__name__` (replacing any existing binding) and returns it. -/
def eventRegister (attrs : AttrTable) (c : Callback) : Except String AttrTable :=
  if !c.isCoroutineFn then .error "event registered must be a coroutine function"
  else .ok (setAttr attrs c.name c)

/-- Result of one `Client.dispatch` call: the updated waiter list for the
event, and the tasks created by `_schedule_event` (task name and callback),
returned as data — dispatch never awaits them. -/
structure DispatchOut (Arg : Type u) (Exn : Type v) where
  listeners : List (Waiter Arg Exn)
  scheduled : List (String × Callback)

/-- `Client.dispatch(event, *args)` in full (client.py lines 1941-1979): the
waiter scan updates the listener list; then `getattr(self, 'on_' + event)`
either finds a persistent handler — wrapped by `_run_event` and scheduled as
a fresh task via `_schedule_event`/`asyncio.create_task`, never awaited by
dispatch itself — or raises `AttributeError`, which is swallowed (`pass`):
dispatching an event with no handler is a no-op. -/
def dispatchRun (attrs : AttrTable) (ev : String) (args : List Arg)
    (ws : List (Waiter Arg Exn)) : DispatchOut Arg Exn :=
  { listeners := afterDispatch args ws,
    scheduled :=
      match getAttr attrs ("on_" ++ ev) with
      | some c => [("on_" ++ ev, c)]
      | none => [] }

/-- Outcome of awaiting one Python coroutine. -/
inductive CoroOutcome (Exn : Type v) where
  | ok
  | cancelled
  | raised (e : Exn)
  deriving DecidableEq

/-- What `Client._run_event` produces: whether `self.on_error` was invoked,
and what (if anything) escapes the scheduled task. -/
structure RunEventOut (Exn : Type v) where
  hookInvoked : Bool
  escaped : Option Exn
  deriving DecidableEq

/-- `Client._run_event` (client.py lines 1925-1934), given the outcome of
awaiting the callback body and the outcome `self.on_error` would have if
invoked.  `except asyncio.CancelledError: pass` swallows cancellation of
either await; `except Exception` routes any other callback exception to
`on_error`.  Whatever escapes, escapes the *scheduled task* only: dispatch
returned when the task was created. -/
def runEvent (body : CoroOutcome Exn) (onErrorOutcome : CoroOutcome Exn) :
    RunEventOut Exn :=
  match body with
  | .ok => ⟨false, none⟩
  | .cancelled => ⟨false, none⟩
  | .raised _ =>
    match onErrorOutcome with
    | .ok => ⟨true, none⟩
    | .cancelled => ⟨true, none⟩
    | .raised e2 => ⟨true, some e2⟩

/-- The default `Client.on_error` (client.py lines 1981-1991) prints the
traceback and returns normally. -/
def defaultOnError {Exn : Type v} : CoroOutcome Exn := .ok

/-- Scheduled tasks run independently: each task's `_run_event` result is a
function of that task's own callback outcome alone. -/
def runTasks (bodies : List (CoroOutcome Exn)) (onErrorOutcome : CoroOutcome Exn) :
    List (RunEventOut Exn) :=
  bodies.map (fun b => runEvent b onErrorOutcome)

/-! ### `wait_for` deadline (asyncio.wait_for semantics, at the interface) -/

/-- Outcome observed by the caller awaiting the `asyncio.wait_for(future,
timeout)` returned by `Client.wait_for`. -/
inductive WaitOutcome (Arg : Type u) (Exn : Type v) where
  | value (v : DValue Arg)
  | raised (e : Exn)
  | timedOut
  | cancelled
  deriving DecidableEq

/-- Modelled from the spec: the deadline behaviour of the `asyncio.wait_for`
wrapper returned by `Client.wait_for` (client.py line 2590) — the pending
result "fails with `Timeout` if a caller-supplied deadline elapses first".
When the deadline elapses, a still-pending future is cancelled and the caller
receives the timeout failure; a future that already completed reports its own
completion. -/
def deadlineElapse (w : Waiter Arg Exn) : WaitOutcome Arg Exn × Waiter Arg Exn :=
  match w.future with
  | .pending => (.timedOut, { w with future := .cancelled })
  | .result v => (.value v, w)
  | .exn e => (.raised e, w)
  | .cancelled => (.cancelled, w)

/-! ### `Client.close`, `Client.is_closed`, `Client.is_ready` -/

/-- The `Client` state read and written by `Client.close` (the voice-client
disconnect loop is omitted: voice is an optional subsystem outside the core,
and `close` disregards its errors).  The two counters record the externally
visible calls `self.ws.close(code=1000)` and `self.http.close()`. -/
structure CloseState where
  closed : Bool          -- self._closed
  ready : Bool           -- self._ready.is_set()
  wsExists : Bool        -- self.ws is not None
  wsOpen : Bool          -- self.ws.open
  wsCloseCalls : Nat
  httpCloseCalls : Nat
  deriving DecidableEq

/-- `Client.close` (client.py lines 2136-2157): return at once if already
closed; else set the closed flag, close the websocket if there is an open
one, close the HTTP session, and clear the ready event. -/
def closeClient (s : CloseState) : CloseState :=
  if s.closed then s
  else
    let s1 : CloseState := { s with closed := true }
    let s2 : CloseState :=
      if s1.wsExists && s1.wsOpen then
        { s1 with wsCloseCalls := s1.wsCloseCalls + 1, wsOpen := false }
      else s1
    { s2 with httpCloseCalls := s2.httpCloseCalls + 1, ready := false }

/-- `Client.is_closed` (client.py lines 2246-2248). -/
def is_closed (s : CloseState) : Bool := s.closed

/-- `Client.is_ready` (client.py lines 1921-1923). -/
def is_ready (s : CloseState) : Bool := s.ready

/-! ### `Client.connect` -/

/-- The exceptions with which one iteration of `Client.connect`'s websocket
construction / `poll_event` loop terminates (client.py lines 2083-2099).
`reconnectWs` is the gateway's internal `ReconnectWebSocket` resume signal;
the other constructors are the members of the `except` tuple. -/
inductive GwExc where
  | reconnectWs (resume : Bool)     -- ReconnectWebSocket
  | osError (errno : Nat)           -- OSError
  | httpError                       -- HTTPException
  | gatewayNotFound                 -- GatewayNotFound
  | connectionClosed (code : Nat)   -- ConnectionClosed, carrying the close code
  | clientError                     -- aiohttp.ClientError
  | timedOut                        -- asyncio.TimeoutError
  deriving DecidableEq

/-- What `Client.connect` can raise to its caller. -/
inductive ConnectRaised where
  | exc (e : GwExc)                 -- a re-raised caught exception
  | privilegedIntentsRequired       -- PrivilegedIntentsRequired (close code 4014)
  deriving DecidableEq

/-- Observable state of one `Client.connect` call: the client's closed flag
(set via `await self.close()`), the number of `disconnect` events dispatched,
and the number of backoff sleeps (`retry = backoff.delay();
await asyncio.sleep(retry)`) performed. -/
structure ConnState where
  closed : Bool
  disconnects : Nat
  backoffSleeps : Nat
  deriving DecidableEq

inductive ConnectResult where
  | returned (s : ConnState)            -- connect returned normally
  | raised (r : ConnectRaised) (s : ConnState)
  | looping (s : ConnState)             -- script exhausted: still retrying
  deriving DecidableEq

/-- `Client.connect(reconnect=...)` (client.py lines 2052-2134), driven by a
script listing the exception each successive iteration of the
`while not self.is_closed()` loop ends with; an exhausted script means the
loop is still running (about to open the next websocket).  The `ws_params`
sequence/resume bookkeeping the real code carries into the next websocket
construction does not affect control flow and is not tracked. -/
def connectRun (reconnect : Bool) (s : ConnState) : List GwExc → ConnectResult
  | [] => if s.closed then .returned s else .looping s
  | e :: rest =>
    if s.closed then .returned s
    else
      match e with
      | .reconnectWs _ =>
        -- except ReconnectWebSocket: dispatch('disconnect'), update params, retry
        connectRun reconnect { s with disconnects := s.disconnects + 1 } rest
      | exc =>
        -- except (OSError, HTTPException, GatewayNotFound, ConnectionClosed,
        --         aiohttp.ClientError, asyncio.TimeoutError) as exc:
        let s1 : ConnState := { s with disconnects := s.disconnects + 1 }
        if !reconnect then
          let s2 : ConnState := { s1 with closed := true }     -- await self.close()
          match exc with
          | .connectionClosed code =>
            -- isinstance(exc, ConnectionClosed) and exc.code == 1000: clean close
            if code = 1000 then .returned s2
            else .raised (.exc (.connectionClosed code)) s2
          | _ => .raised (.exc exc) s2                         -- raise
        else if s1.closed then .returned s1
        else
          match exc with
          | .osError errno =>
            -- exc.errno in (54, 10054): connection reset by peer, RESUME at once
            if errno = 54 ∨ errno = 10054 then connectRun reconnect s1 rest
            else connectRun reconnect { s1 with backoffSleeps := s1.backoffSleeps + 1 } rest
          | .connectionClosed code =>
            if code = 4014 then .raised .privilegedIntentsRequired s1
            else if code ≠ 1000 then
              .raised (.exc (.connectionClosed code)) { s1 with closed := true }
            else
              connectRun reconnect { s1 with backoffSleeps := s1.backoffSleeps + 1 } rest
          | _ => connectRun reconnect { s1 with backoffSleeps := s1.backoffSleeps + 1 } rest

/-! ### The message cache -/

/-- Modelled from the spec: the message store lives in `ConnectionState`
(`discord/state.py`, not under src) — "`messages`: a bounded FIFO ring of the
most recently seen messages (capacity configurable, default 1000;
`None`/unbounded disables); oldest evicted first".  This is one append to a
deque with `maxlen = cap`. -/
def pushMessage {Msg : Type u} (cap : Nat) (ring : List Msg) (m : Msg) : List Msg :=
  let r := ring ++ [m]
  if cap < r.length then r.drop (r.length - cap) else r

/-- The client's message cache: `max_messages` (client.py's docstring:
defaults to 1000, `None` disables the cache) and the ring itself;
`cap = none` models `_messages is None`. -/
structure MsgCache (Msg : Type u) where
  cap : Option Nat
  ring : List Msg

/-- The `max_messages` default documented in client.py (lines 1696-1701). -/
def defaultMaxMessages : Option Nat := some 1000

/-- Modelled from the spec: inserting one seen message into the ring
(no-op when the cache is disabled). -/
def pushMsg {Msg : Type u} (c : MsgCache Msg) (m : Msg) : MsgCache Msg :=
  match c.cap with
  | none => c
  | some k => { c with ring := pushMessage k c.ring m }

/-- `Client.cached_messages` (client.py lines 1874-1880): a read-only
sequence view of `self._connection._messages or []`. -/
def cached_messages {Msg : Type u} (c : MsgCache Msg) : List Msg :=
  match c.cap with
  | none => []
  | some _ => c.ring

/-! ### Basic lemmas about the scan and reverse-order deletion -/

theorem delIdx_zero {α : Type u} (x : α) (xs : List α) :
    delIdx (x :: xs) 0 = xs := by
  simp [delIdx]

theorem delIdx_succ {α : Type u} (x : α) (xs : List α) (i : Nat) :
    delIdx (x :: xs) (i + 1) = x :: delIdx xs i := by
  simp [delIdx]

theorem foldl_delIdx_mapSucc {α : Type u} (js : List Nat) (x : α) (xs : List α) :
    (js.map Nat.succ).foldl delIdx (x :: xs) = x :: js.foldl delIdx xs := by
  induction js generalizing xs with
  | nil => rfl
  | cons j js ih =>
    simp only [List.map_cons, List.foldl_cons]
    rw [show Nat.succ j = j + 1 from rfl, delIdx_succ, ih]

theorem delAllRev_mapSucc {α : Type u} (js : List Nat) (x : α) (xs : List α) :
    delAllRev (x :: xs) (js.map Nat.succ) = x :: delAllRev xs js := by
  unfold delAllRev
  rw [← List.map_reverse]
  exact foldl_delIdx_mapSucc js.reverse x xs

theorem delAllRev_cons (l : List (Waiter Arg Exn)) (i : Nat) (js : List Nat) :
    delAllRev l (i :: js) = delIdx (delAllRev l js) i := by
  unfold delAllRev
  rw [List.reverse_cons, List.foldl_append]
  rfl

theorem scanFrom_fst (args : List Arg) (i : Nat) (ws : List (Waiter Arg Exn)) :
    (scanFrom args i ws).1 = ws.map (fun w => (procWaiter args w).1) := by
  induction ws generalizing i with
  | nil => rfl
  | cons w ws ih => simp [scanFrom, ih]

theorem scanFrom_snd_succ (args : List Arg) (i : Nat) (ws : List (Waiter Arg Exn)) :
    (scanFrom args (i + 1) ws).2 = ((scanFrom args i ws).2).map Nat.succ := by
  induction ws generalizing i with
  | nil => rfl
  | cons w ws ih =>
    simp only [scanFrom]
    by_cases h : (procWaiter args w).2 <;> simp [h, ih]

theorem scanFrom_snd_length (args : List Arg) (i : Nat) (ws : List (Waiter Arg Exn)) :
    (scanFrom args i ws).2.length =
      ((ws.map (procWaiter args)).filter (fun p => p.2)).length := by
  induction ws generalizing i with
  | nil => rfl
  | cons w ws ih =>
    simp only [scanFrom, List.map_cons]
    by_cases h : (procWaiter args w).2 <;> simp [h, ih]

theorem filter_neg_nil {α : Type u} (p : α → Bool) (l : List α)
    (h : (l.filter p).length = l.length) :
    l.filter (fun a => !p a) = [] := by
  induction l with
  | nil => rfl
  | cons a l ih =>
    by_cases ha : p a
    · simp only [List.filter_cons, ha, if_true, List.length_cons] at h
      simp [List.filter_cons, ha, ih (by omega)]
    · exfalso
      have hle := List.length_filter_le p l
      simp [List.filter_cons, ha] at h
      omega

/-- The literal reverse-order index deletion equals keeping, in order, exactly
the waiters whose scan flag is false. -/
theorem delAllRev_scan (args : List Arg) (ws : List (Waiter Arg Exn)) :
    delAllRev (scanFrom args 0 ws).1 (scanFrom args 0 ws).2 =
      ((ws.map (procWaiter args)).filter (fun p => !p.2)).map Prod.fst := by
  induction ws with
  | nil => rfl
  | cons w ws ih =>
    simp only [scanFrom, List.map_cons]
    by_cases h : (procWaiter args w).2
    · simp only [h, if_true]
      rw [scanFrom_snd_succ, delAllRev_cons, delAllRev_mapSucc, delIdx_zero,
        scanFrom_fst args (0 + 1) ws, ← scanFrom_fst args 0 ws, ih]
      simp [List.filter_cons, h]
    · simp only [h, if_false, Bool.false_eq_true]
      rw [scanFrom_snd_succ, delAllRev_mapSucc,
        scanFrom_fst args (0 + 1) ws, ← scanFrom_fst args 0 ws, ih]
      simp [List.filter_cons, h]

/-- `afterDispatch` keeps, in their original order, exactly the scanned
waiters whose `removed` flag is false (whether the dict entry was popped or
the indices deleted one by one). -/
theorem afterDispatch_eq_filter (args : List Arg) (ws : List (Waiter Arg Exn)) :
    afterDispatch args ws =
      ((ws.map (procWaiter args)).filter (fun p => !p.2)).map Prod.fst := by
  unfold afterDispatch
  by_cases h : (scanFrom args 0 ws).2.length = ws.length
  · rw [if_pos h]
    rw [scanFrom_snd_length] at h
    have : ws.length = (ws.map (procWaiter args)).length := by simp
    rw [filter_neg_nil (fun p => p.2) (ws.map (procWaiter args)) (by omega)]
    rfl
  · rw [if_neg h]
    exact delAllRev_scan args ws

/-! ### Equations for one scan step and for dispatch folding -/

theorem procWaiter_pending_false (args : List Arg)
    (check : List Arg → Except Exn Bool) (h : check args = .ok false) :
    procWaiter args (⟨.pending, check⟩ : Waiter Arg Exn) = (⟨.pending, check⟩, false) := by
  simp [procWaiter, h]

theorem procWaiter_pending_true (args : List Arg)
    (check : List Arg → Except Exn Bool) (h : check args = .ok true) :
    procWaiter args (⟨.pending, check⟩ : Waiter Arg Exn) =
      (⟨.result (valueOf args), check⟩, true) := by
  simp [procWaiter, h]

theorem procWaiter_pending_raise (args : List Arg)
    (check : List Arg → Except Exn Bool) (e : Exn) (h : check args = .error e) :
    procWaiter args (⟨.pending, check⟩ : Waiter Arg Exn) = (⟨.exn e, check⟩, true) := by
  simp [procWaiter, h]

theorem procWaiter_cancelled_fst (args : List Arg)
    (check : List Arg → Except Exn Bool) :
    procWaiter args (⟨.cancelled, check⟩ : Waiter Arg Exn) = (⟨.cancelled, check⟩, true) :=
  rfl

theorem afterDispatch_nil (args : List Arg) :
    afterDispatch args ([] : List (Waiter Arg Exn)) = [] := rfl

theorem dispatchFold_cons (a : List Arg) (calls : List (List Arg))
    (ws : List (Waiter Arg Exn)) :
    dispatchFold (a :: calls) ws = dispatchFold calls (afterDispatch a ws) := rfl

theorem dispatchFold_append (c1 c2 : List (List Arg)) (ws : List (Waiter Arg Exn)) :
    dispatchFold (c1 ++ c2) ws = dispatchFold c2 (dispatchFold c1 ws) :=
  List.foldl_append _ _ _ _

theorem dispatchFold_nil_listeners (calls : List (List Arg)) :
    dispatchFold calls ([] : List (Waiter Arg Exn)) = [] := by
  induction calls with
  | nil => rfl
  | cons a calls ih => rw [dispatchFold_cons, afterDispatch_nil]; exact ih

theorem dispatchFold_nomatch (check : List Arg → Except Exn Bool)
    (calls : List (List Arg)) (h : ∀ a ∈ calls, check a = .ok false) :
    dispatchFold calls [(⟨.pending, check⟩ : Waiter Arg Exn)] = [⟨.pending, check⟩] := by
  revert h
  induction calls with
  | nil => intro h; rfl
  | cons a calls ih =>
    intro h
    rw [dispatchFold_cons]
    have ha : check a = .ok false := h a (List.mem_cons_self a calls)
    have hstep : afterDispatch a [(⟨.pending, check⟩ : Waiter Arg Exn)] = [⟨.pending, check⟩] := by
      rw [afterDispatch_eq_filter]
      simp [procWaiter_pending_false a check ha]
    rw [hstep]
    exact ih (fun x hx => h x (List.mem_cons_of_mem a hx))

theorem procWaiter_future_cancelled (args : List Arg) (w : Waiter Arg Exn)
    (h : w.future = .cancelled) : procWaiter args w = (w, true) := by
  unfold procWaiter
  rw [h]

theorem procWaiter_future_pending (args : List Arg) (w : Waiter Arg Exn)
    (h : w.future = .pending) :
    procWaiter args w =
      match w.check args with
      | .error e => ({ w with future := .exn e }, true)
      | .ok true => ({ w with future := .result (valueOf args) }, true)
      | .ok false => (w, false) := by
  unfold procWaiter
  rw [h]

/-! ### Attribute-table lemmas for `setattr`/`getattr` -/

theorem getAttr_map_update_self (n : String) (c : Callback) :
    ∀ attrs : AttrTable, attrs.any (fun p => p.1 == n) = true →
      getAttr (attrs.map (fun p => if p.1 == n then (n, c) else p)) n = some c := by
  intro attrs
  induction attrs with
  | nil => intro h; simp at h
  | cons a attrs ih =>
    intro h
    by_cases ha : (a.1 == n) = true
    · simp only [List.map_cons, if_pos ha]
      rw [getAttr, @List.find?_cons_of_pos _ (fun p => p.1 == n) ((n, c) : String × Callback) _ (by simp)]
      rfl
    · simp only [List.map_cons, if_neg ha]
      rw [getAttr, @List.find?_cons_of_neg _ (fun p => p.1 == n) a _ ha]
      have h2 : attrs.any (fun p => p.1 == n) = true := by
        simp only [List.any_cons, Bool.or_eq_true] at h
        rcases h with h | h
        · exact absurd h ha
        · exact h
      exact ih h2

theorem getAttr_setAttr_self (attrs : AttrTable) (n : String) (c : Callback) :
    getAttr (setAttr attrs n c) n = some c := by
  unfold setAttr
  by_cases h : attrs.any (fun p => p.1 == n)
  · rw [if_pos h]
    exact getAttr_map_update_self n c attrs h
  · rw [if_neg h]
    rw [getAttr, List.find?_append]
    have hnone : attrs.find? (fun p => p.1 == n) = none := by
      rw [List.find?_eq_none]
      intro x hx hpx
      exact h (List.any_eq_true.mpr ⟨x, hx, hpx⟩)
    rw [hnone]
    rw [@List.find?_cons_of_pos _ (fun p => p.1 == n) ((n, c) : String × Callback) _ (by simp)]
    rfl

theorem getAttr_map_update_ne (n m : String) (c : Callback) (hne : m ≠ n) :
    ∀ attrs : AttrTable,
      getAttr (attrs.map (fun p => if p.1 == n then (n, c) else p)) m = getAttr attrs m := by
  intro attrs
  induction attrs with
  | nil => rfl
  | cons a attrs ih =>
    by_cases ha : (a.1 == n) = true
    · simp only [List.map_cons, if_pos ha]
      have ham : ¬ ((((n, c) : String × Callback)).1 == m) = true := by
        simp only [beq_iff_eq]
        exact fun hh => hne hh.symm
      have ham2 : ¬ ((a.1 == m) = true) := by
        have hn : a.1 = n := by simpa using ha
        simp only [hn, beq_iff_eq]
        exact fun hh => hne hh.symm
      rw [getAttr, @List.find?_cons_of_neg _ (fun p => p.1 == m) ((n, c) : String × Callback) _ ham,
        getAttr, @List.find?_cons_of_neg _ (fun p => p.1 == m) a _ ham2]
      exact ih
    · simp only [List.map_cons, if_neg ha]
      by_cases ham : (a.1 == m) = true
      · rw [getAttr, @List.find?_cons_of_pos _ (fun p => p.1 == m) a _ ham,
          getAttr, @List.find?_cons_of_pos _ (fun p => p.1 == m) a _ ham]
      · rw [getAttr, @List.find?_cons_of_neg _ (fun p => p.1 == m) a _ ham,
          getAttr, @List.find?_cons_of_neg _ (fun p => p.1 == m) a _ ham]
        exact ih

theorem getAttr_setAttr_ne (attrs : AttrTable) (n m : String) (c : Callback)
    (hne : m ≠ n) : getAttr (setAttr attrs n c) m = getAttr attrs m := by
  unfold setAttr
  by_cases h : attrs.any (fun p => p.1 == n)
  · rw [if_pos h]
    exact getAttr_map_update_ne n m c hne attrs
  · rw [if_neg h]
    rw [getAttr, List.find?_append]
    have hsingle : List.find? (fun p => p.1 == m) [((n, c) : String × Callback)] = none := by
      rw [@List.find?_cons_of_neg _ (fun p => p.1 == m) ((n, c) : String × Callback) _
        (by simp only [beq_iff_eq]; exact fun hh => hne hh.symm)]
      rfl
    rw [hsingle, Option.or_none]
    rfl

/-! ### Message-ring lemmas -/

theorem foldl_pushMsg_none {Msg : Type u} (msgs : List Msg) (r : List Msg) :
    msgs.foldl pushMsg (⟨none, r⟩ : MsgCache Msg) = ⟨none, r⟩ := by
  induction msgs with
  | nil => rfl
  | cons m msgs ih => simpa [pushMsg] using ih

theorem foldl_pushMsg_some {Msg : Type u} (k : Nat) (msgs : List Msg) (r : List Msg) :
    msgs.foldl pushMsg (⟨some k, r⟩ : MsgCache Msg) =
      ⟨some k, msgs.foldl (pushMessage k) r⟩ := by
  induction msgs generalizing r with
  | nil => rfl
  | cons m msgs ih => simp [pushMsg, ih]

theorem pushMessage_foldl_drop {Msg : Type u} (k : Nat) (msgs : List Msg) :
    msgs.foldl (pushMessage k) [] = msgs.drop (msgs.length - k) := by
  induction msgs using List.reverseRecOn with
  | nil => simp
  | append_singleton ms m ih =>
    rw [List.foldl_append, List.foldl_cons, List.foldl_nil, ih]
    unfold pushMessage
    simp only [List.length_append, List.length_singleton, List.length_drop]
    by_cases hk : ms.length ≤ k
    · have h0 : ms.length - k = 0 := by omega
      rw [h0, List.drop_zero]
      by_cases hk2 : k < ms.length + 1
      · rw [if_pos (by simpa using hk2)]
        rw [show ms.length - 0 + 1 - k = ms.length + 1 - k by omega]
      · rw [if_neg (by simpa using hk2)]
        have h1 : ms.length + 1 - k = 0 := by omega
        rw [h1, List.drop_zero]
    · have hlt : k < ms.length := by omega
      have hdlen : (ms.drop (ms.length - k)).length = k := by
        rw [List.length_drop]; omega
      rw [if_pos (show k < ms.length - (ms.length - k) + 1 by omega)]
      rw [show ms.length - (ms.length - k) + 1 - k = 1 by omega]
      by_cases hz : k = 0
      · subst hz
        rw [show ms.length - 0 = ms.length by omega, List.drop_length, List.nil_append]
        rw [show ms.length + 1 - 0 = ms.length + 1 by omega]
        rw [List.drop_eq_nil_of_le (show (ms ++ [m]).length ≤ ms.length + 1 by simp)]
        rfl
      · have hk1 : 1 ≤ k := by omega
        rw [List.drop_append_eq_append_drop, hdlen]
        rw [show 1 - k = 0 by omega, List.drop_zero]
        rw [List.drop_drop]
        rw [List.drop_append_eq_append_drop]
        rw [show ms.length + 1 - k - ms.length = 0 by omega, List.drop_zero]
        rw [show ms.length - k + 1 = ms.length + 1 - k by omega]

/-! ### The claims -/

/-- Claim C1: a one-shot waiter registered via `wait_for` (appended as a
pending future to its event's listener list) survives every dispatch whose
arguments fail its check, resolves at the first subsequent dispatch whose
arguments satisfy the check — completed with `None` for zero arguments, the
single argument for one, and the whole argument tuple otherwise — and is
removed from the listener list by that same dispatch, so no later dispatch
of the event can re-trigger or re-complete it; dispatches of other event
names never touch this event's list. -/
theorem waiter_resolves_first_match
    (check : List Arg → Except Exn Bool) (pre post : List (List Arg))
    (margs : List Arg)
    (hpre : ∀ a ∈ pre, check a = .ok false) (hm : check margs = .ok true) :
    (∀ (L : Listeners Arg Exn) (e : String),
      registerWaiter L e check e.toLower = L e.toLower ++ [⟨.pending, check⟩]) ∧
    dispatchFold pre [(⟨.pending, check⟩ : Waiter Arg Exn)] = [⟨.pending, check⟩] ∧
    procWaiter margs (⟨.pending, check⟩ : Waiter Arg Exn) =
      (⟨.result (valueOf margs), check⟩, true) ∧
    dispatchFold (pre ++ margs :: post) [(⟨.pending, check⟩ : Waiter Arg Exn)] = [] ∧
    (valueOf ([] : List Arg) = .unit ∧
      (∀ a : Arg, valueOf [a] = .single a) ∧
      ∀ (a b : Arg) (l : List Arg), valueOf (a :: b :: l) = .tuple (a :: b :: l)) ∧
    ∀ (L : Listeners Arg Exn) (ev other : String) (args : List Arg),
      other ≠ ev → dispatchListeners L other args ev = L ev := by
  refine ⟨?_, dispatchFold_nomatch check pre hpre,
    procWaiter_pending_true margs check hm, ?_, ?_, ?_⟩
  · intro L e
    simp [registerWaiter]
  · rw [dispatchFold_append, dispatchFold_nomatch check pre hpre, dispatchFold_cons]
    have hgone : afterDispatch margs [(⟨.pending, check⟩ : Waiter Arg Exn)] = [] := by
      rw [afterDispatch_eq_filter]
      simp [procWaiter_pending_true margs check hm]
    rw [hgone]
    exact dispatchFold_nil_listeners post
  · exact ⟨rfl, fun a => rfl, fun a b l => rfl⟩
  · intro L ev other args hne
    simp only [dispatchListeners]
    rw [if_neg (fun hh => hne hh.symm)]

/-- Witness for C1 at a concrete run: the waiter checking for two-argument
events ignores the dispatch of `[5]`, resolves on `[7, 8]`, and is gone for
the rest. -/
theorem waiter_resolves_first_match_witness :
    dispatchFold ([[5]] ++ [7, 8] :: [[9, 9]])
      [(⟨.pending, fun as_ => .ok (as_.length == 2)⟩ : Waiter Nat Nat)] = [] :=
  (waiter_resolves_first_match (fun as_ => .ok (as_.length == 2)) [[5]] [[9, 9]] [7, 8]
    (by intro a ha; simp at ha; subst ha; rfl) rfl).2.2.2.1

/-- Claim C4: a waiter whose check raises during the dispatch scan has its
own future failed with the raised exception and is removed; the dispatch
call itself completes normally (the exception is consumed by
`future.set_exception`), every other waiter in the list is still scanned
with its future updated as always, and the resulting listener list is the
same as if the raising waiter had been absent. -/
theorem raising_check_is_isolated
    (check : List Arg → Except Exn Bool) (e : Exn) (args : List Arg)
    (ws1 ws2 : List (Waiter Arg Exn)) (he : check args = .error e) :
    procWaiter args (⟨.pending, check⟩ : Waiter Arg Exn) = (⟨.exn e, check⟩, true) ∧
    afterDispatch args (ws1 ++ (⟨.pending, check⟩ : Waiter Arg Exn) :: ws2) =
      afterDispatch args (ws1 ++ ws2) ∧
    (ws1 ++ (⟨.pending, check⟩ : Waiter Arg Exn) :: ws2).map
        (fun x => (procWaiter args x).1) =
      ws1.map (fun x => (procWaiter args x).1) ++
        (⟨.exn e, check⟩ : Waiter Arg Exn) :: ws2.map (fun x => (procWaiter args x).1) := by
  have hp := procWaiter_pending_raise args check e he
  refine ⟨hp, ?_, ?_⟩
  · rw [afterDispatch_eq_filter, afterDispatch_eq_filter]
    simp [List.map_append, List.filter_append, List.filter_cons, hp]
  · simp [hp]

/-- Witness for C4: a raising waiter disappears while its non-matching
neighbour survives the same dispatch. -/
theorem raising_check_is_isolated_witness :
    afterDispatch [1]
      [(⟨.pending, fun _ => .error 7⟩ : Waiter Nat Nat),
        ⟨.pending, fun _ => .ok false⟩] =
      afterDispatch [1] [(⟨.pending, fun _ => .ok false⟩ : Waiter Nat Nat)] :=
  (raising_check_is_isolated (fun _ => .error 7) 7 [1] []
    [(⟨.pending, fun _ => .ok false⟩ : Waiter Nat Nat)] rfl).2.1

/-- Claim C5: when a `wait_for` deadline elapses while the waiter's future is
still pending — before any matching event was dispatched — the awaiting
caller fails with the timeout error and the future is cancelled; the next
dispatch of the event then removes the waiter from the listener list without
evaluating its check and without completing it. -/
theorem deadline_times_out_and_removes
    (check : List Arg → Except Exn Bool) :
    (deadlineElapse (⟨.pending, check⟩ : Waiter Arg Exn)).1 = .timedOut ∧
    (deadlineElapse (⟨.pending, check⟩ : Waiter Arg Exn)).2 =
      (⟨.cancelled, check⟩ : Waiter Arg Exn) ∧
    ∀ (args : List Arg) (ws1 ws2 : List (Waiter Arg Exn)),
      procWaiter args (⟨.cancelled, check⟩ : Waiter Arg Exn) =
        (⟨.cancelled, check⟩, true) ∧
      afterDispatch args (ws1 ++ (⟨.cancelled, check⟩ : Waiter Arg Exn) :: ws2) =
        afterDispatch args (ws1 ++ ws2) := by
  refine ⟨rfl, rfl, ?_⟩
  intro args ws1 ws2
  refine ⟨rfl, ?_⟩
  rw [afterDispatch_eq_filter, afterDispatch_eq_filter]
  simp [List.map_append, List.filter_append, List.filter_cons,
    procWaiter_cancelled_fst]

/-- Claim C6: a dispatch removes exactly the waiters that matched, raised,
or were cancelled, and keeps every other waiter — pending with a
false-returning check — unchanged and in original registration order: the
post-dispatch listener list is the in-order filter of the pre-dispatch list
by `keptByScan`.  The hypothesis is the reachable-state invariant that
listed futures are pending or cancelled (a dispatch that completes a future
removes it in the same scan, so completed futures never stay listed). -/
theorem dispatch_keeps_exactly_unmatched
    (args : List Arg) (ws : List (Waiter Arg Exn))
    (hinv : ∀ w ∈ ws, w.future = .pending ∨ w.future = .cancelled) :
    afterDispatch args ws = ws.filter (keptByScan args) := by
  rw [afterDispatch_eq_filter]
  revert hinv
  induction ws with
  | nil => intro _; rfl
  | cons w ws ih =>
    intro hinv
    have hw := hinv w (List.mem_cons_self w ws)
    have hrec := ih (fun x hx => hinv x (List.mem_cons_of_mem w hx))
    simp only [List.map_cons, List.filter_cons]
    rcases hw with h | h
    · rcases hc : w.check args with e | b
      · simp [procWaiter_future_pending args w h, keptByScan, h, hc, hrec]
      · cases b
        · simp [procWaiter_future_pending args w h, keptByScan, h, hc, hrec]
        · simp [procWaiter_future_pending args w h, keptByScan, h, hc, hrec]
    · simp [procWaiter_future_cancelled args w h, keptByScan, h, hrec]

/-- Witness for C6: of three waiters — one matching, one cancelled, one
pending and non-matching — only the last survives the dispatch. -/
theorem dispatch_keeps_exactly_unmatched_witness :
    afterDispatch [1]
      [(⟨.pending, fun _ => .ok true⟩ : Waiter Nat Nat),
        ⟨.cancelled, fun _ => .ok false⟩,
        ⟨.pending, fun _ => .ok false⟩] =
      [(⟨.pending, fun _ => .ok false⟩ : Waiter Nat Nat)] := by
  have h := dispatch_keeps_exactly_unmatched [1]
    [(⟨.pending, fun _ => .ok true⟩ : Waiter Nat Nat),
      ⟨.cancelled, fun _ => .ok false⟩,
      ⟨.pending, fun _ => .ok false⟩]
    (by
      intro w hw
      simp only [List.mem_cons, List.not_mem_nil, or_false] at hw
      rcases hw with h | h | h <;> subst h
      · exact Or.inl rfl
      · exact Or.inr rfl
      · exact Or.inl rfl)
  rw [h]
  rfl

/-- Claim C3: dispatch schedules the persistent callback registered under
`on_<event_name>` as a separate task, returned as created data and never
awaited — the listener state dispatch produces is the waiter-scan result
alone, independent of any callback execution — and `_run_event` isolates
callback failures: an exception raised in the callback is caught and routed
to the `on_error` hook, nothing escapes the task when the hook itself does
not raise (in particular with the default `on_error`), cancellation is
swallowed, and each scheduled task's outcome is a function of its own
callback alone, so one callback's failure cannot reach sibling tasks or the
dispatch caller. -/
theorem dispatch_schedules_and_isolates
    (attrs : AttrTable) (ev : String) (args : List Arg)
    (ws : List (Waiter Arg Exn)) (c : Callback)
    (hc : getAttr attrs ("on_" ++ ev) = some c) :
    (dispatchRun attrs ev args ws).listeners = afterDispatch args ws ∧
    (dispatchRun attrs ev args ws).scheduled = [("on_" ++ ev, c)] ∧
    (∀ e : Exn, runEvent (.raised e) defaultOnError = ⟨true, none⟩) ∧
    (∀ (e : Exn) (hook : CoroOutcome Exn), (∀ e2 : Exn, hook ≠ .raised e2) →
      runEvent (.raised e) hook = ⟨true, none⟩) ∧
    (∀ hook : CoroOutcome Exn,
      runEvent (.ok : CoroOutcome Exn) hook = ⟨false, none⟩ ∧
      runEvent (.cancelled : CoroOutcome Exn) hook = ⟨false, none⟩) ∧
    ∀ (b1 b2 : List (CoroOutcome Exn)) (b : CoroOutcome Exn) (hook : CoroOutcome Exn),
      runTasks (b1 ++ b :: b2) hook =
        runTasks b1 hook ++ runEvent b hook :: runTasks b2 hook := by
  refine ⟨rfl, ?_, fun e => rfl, ?_, fun hook => ⟨rfl, rfl⟩, ?_⟩
  · simp [dispatchRun, hc]
  · intro e hook hne
    cases hook with
    | ok => rfl
    | cancelled => rfl
    | raised e2 => exact absurd rfl (hne e2)
  · intro b1 b2 b hook
    simp [runTasks]

/-- Witness for C3: the registered `on_msg` handler is scheduled by a
dispatch of `msg`, as returned task data. -/
theorem dispatch_schedules_and_isolates_witness :
    (dispatchRun [("on_msg", ⟨"on_msg", true⟩)] "msg" ([] : List Nat)
      ([] : List (Waiter Nat Nat))).scheduled = [("on_" ++ "msg", ⟨"on_msg", true⟩)] :=
  (dispatch_schedules_and_isolates [("on_msg", ⟨"on_msg", true⟩)] "msg"
    ([] : List Nat) ([] : List (Waiter Nat Nat)) ⟨"on_msg", true⟩ (by decide)).2.1

/-- Claim C7: `event` raises `TypeError` unless its argument is a coroutine
function; otherwise it binds the callback as the attribute named by the
callback's own `__name__` — replacing any existing binding of that name and
leaving every other attribute unchanged — so a callback named `on_<e>` is
exactly what a dispatch of event `e` finds and schedules; and dispatching an
event whose `on_<event_name>` attribute is absent schedules nothing while
still performing the waiter scan: a no-op, not an error. -/
theorem event_registration_semantics (attrs : AttrTable) (c : Callback) :
    (c.isCoroutineFn = false →
      eventRegister attrs c = .error "event registered must be a coroutine function") ∧
    (c.isCoroutineFn = true →
      eventRegister attrs c = .ok (setAttr attrs c.name c) ∧
      getAttr (setAttr attrs c.name c) c.name = some c ∧
      (∀ n : String, n ≠ c.name → getAttr (setAttr attrs c.name c) n = getAttr attrs n) ∧
      ∀ ev : String, c.name = "on_" ++ ev →
        ∀ (args : List Arg) (ws : List (Waiter Arg Exn)),
          (dispatchRun (setAttr attrs c.name c) ev args ws).scheduled =
            [("on_" ++ ev, c)]) ∧
    ∀ (ev : String) (args : List Arg) (ws : List (Waiter Arg Exn)),
      getAttr attrs ("on_" ++ ev) = none →
        dispatchRun attrs ev args ws = ⟨afterDispatch args ws, []⟩ := by
  refine ⟨?_, ?_, ?_⟩
  · intro h
    simp [eventRegister, h]
  · intro h
    refine ⟨by simp [eventRegister, h], getAttr_setAttr_self attrs c.name c, ?_, ?_⟩
    · intro n hn
      exact getAttr_setAttr_ne attrs c.name n c hn
    · intro ev hev args ws
      have hlook : getAttr (setAttr attrs c.name c) ("on_" ++ ev) = some c := by
        rw [← hev]
        exact getAttr_setAttr_self attrs c.name c
      simp [dispatchRun, hlook]
  · intro ev args ws hnone
    simp [dispatchRun, hnone]

/-- Witness for C7: registering the coroutine `on_ready` binds it under its
own name and a lookup finds it. -/
theorem event_registration_semantics_witness :
    getAttr (setAttr [] "on_ready" ⟨"on_ready", true⟩) "on_ready" =
      some ⟨"on_ready", true⟩ :=
  ((@event_registration_semantics Nat Nat [] ⟨"on_ready", true⟩).2.1 rfl).2.1

/-- Claim C8: the message cache is a bounded FIFO ring: starting empty, an
insertion sequence leaves exactly its most recent `cap` messages in recency
order — so the ring never exceeds the configured capacity, and after
`cap + 1` insertions the oldest original message is gone while the rest
remain in order; the documented capacity default is 1000, a `none` capacity
disables the cache entirely, and `cached_messages` exposes the ring (or `[]`
when the cache is disabled). -/
theorem message_ring_bounded {Msg : Type u} (k : Nat) (msgs : List Msg) :
    (msgs.foldl pushMsg (⟨some k, []⟩ : MsgCache Msg)).ring =
      msgs.drop (msgs.length - k) ∧
    (cached_messages (msgs.foldl pushMsg (⟨some k, []⟩ : MsgCache Msg))).length ≤ k ∧
    (msgs.length = k + 1 →
      cached_messages (msgs.foldl pushMsg (⟨some k, []⟩ : MsgCache Msg)) = msgs.drop 1) ∧
    defaultMaxMessages = some 1000 ∧
    msgs.foldl pushMsg (⟨none, []⟩ : MsgCache Msg) = ⟨none, []⟩ ∧
    cached_messages (⟨none, []⟩ : MsgCache Msg) = [] := by
  have h1 := foldl_pushMsg_some k msgs []
  have h2 := @pushMessage_foldl_drop Msg k msgs
  refine ⟨?_, ?_, ?_, rfl, foldl_pushMsg_none msgs [], rfl⟩
  · rw [h1]
    exact h2
  · rw [h1]
    show (msgs.foldl (pushMessage k) []).length ≤ k
    rw [h2, List.length_drop]
    omega
  · intro hlen
    rw [h1]
    show msgs.foldl (pushMessage k) [] = msgs.drop 1
    rw [h2, hlen]
    rw [show k + 1 - k = 1 by omega]

/-- Witness for C8: capacity 2 keeps only the two most recent of three
messages. -/
theorem message_ring_bounded_witness :
    cached_messages (([10, 20, 30] : List Nat).foldl pushMsg ⟨some 2, []⟩) =
      ([10, 20, 30] : List Nat).drop 1 :=
  (message_ring_bounded 2 ([10, 20, 30] : List Nat)).2.2.1 rfl

/-- Counterexample to claim C2 as stated: with reconnect allowed, a
`ConnectionClosed` whose close code 4010 is neither an authentication
failure (4004) nor a disallowed-intents failure (4014), yet `connect` does
not retry it with backoff — it closes the client and raises the error to the
caller at once. -/
theorem connect_4010_fatal_counterexample :
    connectRun true ⟨false, 0, 0⟩ [.connectionClosed 4010] =
      .raised (.exc (.connectionClosed 4010)) ⟨true, 1, 0⟩ ∧
    (4010 : Nat) ≠ 4004 ∧ (4010 : Nat) ≠ 4014 ∧
    connectRun true ⟨false, 0, 0⟩ [.osError 54] = .looping ⟨false, 1, 0⟩ := by
  refine ⟨?_, by decide, by decide, ?_⟩ <;> rfl

/-- Claim C2 as amended: with reconnect allowed, an authentication-failure
close (4004) and a disallowed-intents close (4014) are fatal — `connect`
raises (`ConnectionClosed` resp. `PrivilegedIntentsRequired`) immediately,
consuming no further reconnect attempt — and so is every other
`ConnectionClosed` whose code is not 1000; every remaining disconnect is
retried indefinitely: with a backoff sleep for HTTP errors, gateway-lookup
failures, client errors, timeouts, generic OSErrors and clean 1000 closes,
and immediately without backoff for server-requested `ReconnectWebSocket`
signals and connection-reset OSErrors (errno 54/10054). -/
theorem connect_reconnect_classification (s : ConnState) (rest : List GwExc)
    (hs : s.closed = false) :
    (connectRun true s (.connectionClosed 4004 :: rest) =
      .raised (.exc (.connectionClosed 4004))
        { s with disconnects := s.disconnects + 1, closed := true }) ∧
    (connectRun true s (.connectionClosed 4014 :: rest) =
      .raised .privilegedIntentsRequired { s with disconnects := s.disconnects + 1 }) ∧
    (∀ code : Nat, code ≠ 1000 → code ≠ 4014 →
      connectRun true s (.connectionClosed code :: rest) =
        .raised (.exc (.connectionClosed code))
          { s with disconnects := s.disconnects + 1, closed := true }) ∧
    (∀ b : Bool, connectRun true s (.reconnectWs b :: rest) =
      connectRun true { s with disconnects := s.disconnects + 1 } rest) ∧
    (∀ errno : Nat, errno = 54 ∨ errno = 10054 →
      connectRun true s (.osError errno :: rest) =
        connectRun true { s with disconnects := s.disconnects + 1 } rest) ∧
    (∀ errno : Nat, errno ≠ 54 → errno ≠ 10054 →
      connectRun true s (.osError errno :: rest) =
        connectRun true
          { s with disconnects := s.disconnects + 1,
                   backoffSleeps := s.backoffSleeps + 1 } rest) ∧
    (connectRun true s (.connectionClosed 1000 :: rest) =
      connectRun true
        { s with disconnects := s.disconnects + 1,
                 backoffSleeps := s.backoffSleeps + 1 } rest) ∧
    ∀ e : GwExc,
      (e = .httpError ∨ e = .gatewayNotFound ∨ e = .clientError ∨ e = .timedOut) →
      connectRun true s (e :: rest) =
        connectRun true
          { s with disconnects := s.disconnects + 1,
                   backoffSleeps := s.backoffSleeps + 1 } rest := by
  refine ⟨?_, ?_, ?_, ?_, ?_, ?_, ?_, ?_⟩
  · simp [connectRun, hs]
  · simp [connectRun, hs]
  · intro code h1000 h4014
    simp [connectRun, hs, h1000, h4014]
  · intro b
    simp [connectRun, hs]
  · intro errno herr
    simp [connectRun, hs, herr]
  · intro errno h54 h10054
    have : ¬ (errno = 54 ∨ errno = 10054) := by
      rintro (h | h)
      · exact h54 h
      · exact h10054 h
    simp [connectRun, hs, this]
  · simp [connectRun, hs]
  · rintro e (h | h | h | h) <;> subst h <;> simp [connectRun, hs]

/-- Witness for C2 (amended), at a concrete state: an authentication-failure
close is raised at once. -/
theorem connect_reconnect_classification_witness :
    connectRun true ⟨false, 0, 0⟩ [.connectionClosed 4004] =
      .raised (.exc (.connectionClosed 4004)) ⟨true, 1, 0⟩ :=
  (connect_reconnect_classification ⟨false, 0, 0⟩ [] rfl).1

/-- Claim C9: with `reconnect = False`, a caught `ConnectionClosed` with the
clean close code 1000 makes `connect` close the client and return normally
instead of raising; every other caught connection error closes the client
and is re-raised to the caller. -/
theorem no_reconnect_clean_close (s : ConnState) (code : Nat) (e : GwExc)
    (rest : List GwExc) (hs : s.closed = false) (he : ∀ b, e ≠ .reconnectWs b) :
    (connectRun false s (.connectionClosed code :: rest) =
      if code = 1000 then
        .returned { s with disconnects := s.disconnects + 1, closed := true }
      else
        .raised (.exc (.connectionClosed code))
          { s with disconnects := s.disconnects + 1, closed := true }) ∧
    ((∀ c2, e ≠ .connectionClosed c2) →
      connectRun false s (e :: rest) =
        .raised (.exc e) { s with disconnects := s.disconnects + 1, closed := true }) := by
  constructor
  · by_cases hc : code = 1000
    · subst hc
      simp [connectRun, hs]
    · simp [connectRun, hs, hc]
  · intro hcc
    cases e with
    | reconnectWs b => exact absurd rfl (he b)
    | connectionClosed c2 => exact absurd rfl (hcc c2)
    | osError errno => simp [connectRun, hs]
    | httpError => simp [connectRun, hs]
    | gatewayNotFound => simp [connectRun, hs]
    | clientError => simp [connectRun, hs]
    | timedOut => simp [connectRun, hs]

/-- Witness for C9: a clean 1000 close under no-reconnect returns normally
with the client closed. -/
theorem no_reconnect_clean_close_witness :
    connectRun false ⟨false, 0, 0⟩ [.connectionClosed 1000] =
      .returned ⟨true, 1, 0⟩ := by
  have h := (no_reconnect_clean_close ⟨false, 0, 0⟩ 1000 GwExc.httpError [] rfl
    (fun b hb => nomatch hb)).1
  simpa using h

/-- Claim C10: `close` is idempotent — on an already-closed client it returns
immediately and changes no state (in particular there is no second websocket
close and no second HTTP-session close), and a repeated `close` leaves the
state of the first one — and after any `close` the client reports
`is_closed` and not `is_ready`.  The hypothesis is the reachable-state
invariant that a closed client has its ready event cleared (the only code
path setting the closed flag also clears it). -/
theorem close_idempotent_reports_closed (s : CloseState)
    (hinv : s.closed = true → s.ready = false) :
    (s.closed = true → closeClient s = s) ∧
    closeClient (closeClient s) = closeClient s ∧
    is_closed (closeClient s) = true ∧
    is_ready (closeClient s) = false := by
  have hshort : ∀ t : CloseState, t.closed = true → closeClient t = t := by
    intro t ht
    simp [closeClient, ht]
  have hclosed : (closeClient s).closed = true := by
    by_cases h : s.closed
    · rw [hshort s h]; exact h
    · by_cases hw : s.wsExists && s.wsOpen <;> simp [closeClient, h, hw]
  have hready : (closeClient s).ready = false := by
    by_cases h : s.closed
    · rw [hshort s h]; exact hinv h
    · by_cases hw : s.wsExists && s.wsOpen <;> simp [closeClient, h, hw]
  exact ⟨hshort s, hshort (closeClient s) hclosed, hclosed, hready⟩

/-- Witness for C10: closing an already-closed client changes nothing. -/
theorem close_idempotent_reports_closed_witness :
    closeClient ⟨true, false, true, false, 1, 1⟩ = ⟨true, false, true, false, 1, 1⟩ :=
  (close_idempotent_reports_closed ⟨true, false, true, false, 1, 1⟩ (fun _ => rfl)).1 rfl

end Orion
